import Mathlib

/-!
Verification of the MagTag literary quote clock (src/code.py).

The Python program is shallowly embedded: each Python function that a claim
depends on becomes a Lean definition of the same name, translated from the
source.  Python strings are Lean `String`s (operated on through their
character lists), Python dicts keyed by time strings become association
lists preserving insertion order, Python exceptions become `Except`/`Option`
results, and the `time.monotonic` clock together with the display hardware
become explicit environment records.
-/

namespace MagTag

/-- Configuration constant from the source: `UPDATE_MINUTES = 5`. -/
def UPDATE_MINUTES : Nat := 5

/-- Configuration constant from the source: `MARGIN = 10`. -/
def MARGIN : Nat := 10

/-- Configuration constant from the source: `TIME_24H = True`. -/
def TIME_24H : Bool := true

/-- Python `str.find(c)` on a character list: index of the first occurrence,
or `none` where Python returns `-1`. -/
def pyFind (c : Char) : List Char → Option Nat
  | [] => none
  | x :: xs => if x = c then some 0 else (pyFind c xs).map (· + 1)

/-- The whitespace characters of Python `str.split()` / `str.strip()`
(ASCII portion, which is all the program ever feeds them). -/
def pyIsSpace (c : Char) : Bool :=
  c = ' ' ∨ c = '\t' ∨ c = '\n' ∨ c = '\r' ∨ c = '\x0b' ∨ c = '\x0c'

/-- Auxiliary for Python `str.split()` with no separator: accumulate the
current token (reversed) and emit maximal non-empty runs of
non-whitespace. -/
def splitWsAux : List Char → List Char → List (List Char)
  | [], acc => if acc = [] then [] else [acc.reverse]
  | c :: cs, acc =>
    if pyIsSpace c then
      if acc = [] then splitWsAux cs [] else acc.reverse :: splitWsAux cs []
    else splitWsAux cs (c :: acc)

/-- Python `s.split()` (no argument): split on whitespace runs, no empty
tokens. -/
def pySplitWs (s : String) : List String :=
  (splitWsAux s.data []).map (fun l => ⟨l⟩)

/-- `split_caret_span` from src/code.py lines 131-144: return
`(pre, mid, post)` where `mid` is the first `^...^` span; with no caret the
text is returned unchanged, with a single caret it is stripped; Python
`text.replace` of the caret by the empty string is `List.filter`. -/
def split_caret_span (s : String) : String × Option String × String :=
  match pyFind '^' s.data with
  | none => (s, none, "")
  | some a =>
    match pyFind '^' (s.data.drop (a + 1)) with
    | none => (⟨s.data.filter (fun c => c ≠ '^')⟩, none, "")
    | some brel =>
      (⟨(s.data.take a).filter (fun c => c ≠ '^')⟩,
       some ⟨((s.data.drop (a + 1)).take brel).filter (fun c => c ≠ '^')⟩,
       ⟨((s.data.drop (a + 1)).drop (brel + 1)).filter (fun c => c ≠ '^')⟩)

/-- The text with every caret removed, as produced by the Python
`text.replace` call in the single-caret branch. -/
def removeCarets (s : String) : String :=
  ⟨s.data.filter (fun c => c ≠ '^')⟩

/-- Python `str.strip()` (whitespace from both ends). -/
def pyStrip (s : String) : String :=
  ⟨((s.data.dropWhile pyIsSpace).reverse.dropWhile pyIsSpace).reverse⟩

/-- Decimal value of a digit list. -/
def digitsToNat (l : List Char) : Nat :=
  l.foldl (fun acc c => acc * 10 + (c.toNat - '0'.toNat)) 0

/-- Python `int(s)`: optional surrounding whitespace, optional sign, then a
non-empty run of decimal digits; anything else raises `ValueError`, here
`none`.  (Digit-group underscores of CPython are not modelled; the program
only ever parses plain digit runs.) -/
def py_int (s : String) : Option Int :=
  match ((s.data.dropWhile pyIsSpace).reverse.dropWhile pyIsSpace).reverse with
  | '+' :: ds =>
    if ds ≠ [] ∧ ∀ c ∈ ds, c.isDigit then some (digitsToNat ds) else none
  | '-' :: ds =>
    if ds ≠ [] ∧ ∀ c ∈ ds, c.isDigit then some (-(digitsToNat ds : Int))
    else none
  | ds =>
    if ds ≠ [] ∧ ∀ c ∈ ds, c.isDigit then some (digitsToNat ds) else none

/-- Left-pad with zeros to the given width (Python zero-padded formatting). -/
def zfill (w : Nat) (s : String) : String :=
  ⟨List.replicate (w - s.length) '0'⟩ ++ s

/-- Python `f"{i:02d}"` for an int: total width 2, zeros inserted after the
sign. -/
def pyFmt02 (i : Int) : String :=
  if i < 0 then "-" ++ zfill 1 (toString i.natAbs) else zfill 2 (toString i.natAbs)

/-- Python `f"{n:02d}"` for a non-negative value. -/
def natFmt02 (n : Nat) : String := zfill 2 (toString n)

/-- Split off everything before the first occurrence of `sep`, if any. -/
def splitFirst (sep : Char) : List Char → Option (List Char × List Char)
  | [] => none
  | c :: cs =>
    if c = sep then some ([], cs)
    else (splitFirst sep cs).map (fun p => (c :: p.1, p.2))

/-- Python `s.split(sep, maxsplit)`: at most `n` splits, remainder joined. -/
def pySplitMaxAux (sep : Char) : Nat → List Char → List (List Char)
  | 0, l => [l]
  | n + 1, l =>
    match splitFirst sep l with
    | none => [l]
    | some (pre, rest) => pre :: pySplitMaxAux sep n rest

/-- Python `s.split(sep, maxsplit)` on strings. -/
def pySplitMax (sep : Char) (n : Nat) (s : String) : List String :=
  (pySplitMaxAux sep n s.data).map (fun l => ⟨l⟩)

/-- Auxiliary for Python `s.split(sep)` without `maxsplit`. -/
def splitAllAux (sep : Char) : List Char → List Char → List (List Char)
  | [], acc => [acc.reverse]
  | c :: cs, acc =>
    if c = sep then acc.reverse :: splitAllAux sep cs []
    else splitAllAux sep cs (c :: acc)

/-- Python `s.split(sep)`: split on every occurrence, keeping empty parts. -/
def pySplitAll (sep : Char) (s : String) : List String :=
  (splitAllAux sep s.data []).map (fun l => ⟨l⟩)

/-- Python `line.rstrip("\r\n")`. -/
def rstripCRLF (s : String) : String :=
  ⟨(s.data.reverse.dropWhile (fun c => c = '\r' ∨ c = '\n')).reverse⟩

/-- The only exception `load_quotes_csv` can raise past its `except OSError`
handler: the `ValueError` of `int()` / tuple unpacking. -/
inductive PyError where
  | valueError
deriving DecidableEq

/-- One record of the quote dataset: the tuple
`(raw_quote_with_carets, work, author, tag)` built at src/code.py line 118. -/
structure QuoteRecord where
  text : String
  work : String
  author : String
  tag : String
deriving DecidableEq

/-- The dict `{'HH:MM': [records]}` as an insertion-ordered association
list (CPython dicts preserve insertion order, which `next(iter(...))`
in `pick_for_time` relies on). -/
abbrev QuoteIndex := List (String × List QuoteRecord)

/-- Python `mapping.setdefault(k, []).append(r)`. -/
def setdefault_append (m : QuoteIndex) (k : String) (r : QuoteRecord) :
    QuoteIndex :=
  if m.any (fun p => p.1 = k) then
    m.map (fun p => if p.1 = k then (p.1, p.2 ++ [r]) else p)
  else m ++ [(k, [r])]

/-- Python `mapping.get(k)`. -/
def dictGet (qi : QuoteIndex) (k : String) : Option (List QuoteRecord) :=
  (qi.find? (fun p => p.1 = k)).map (fun p => p.2)

/-- Lines 114-116 of src/code.py: when the stripped time field has length 4
with a colon at index 1, re-format it through `int()`; tuple unpacking of
`hhmm.split(":")` into two names and `int()` itself can raise
`ValueError`. -/
def normalize_hhmm (hhmm : String) : Except PyError String :=
  if hhmm.length = 4 ∧ hhmm.data.get? 1 = some ':' then
    match pySplitAll ':' hhmm with
    | [h, m] =>
      match py_int h, py_int m with
      | some hi, some mi => Except.ok (pyFmt02 hi ++ ":" ++ pyFmt02 mi)
      | _, _ => Except.error PyError.valueError
    | _ => Except.error PyError.valueError
  else Except.ok hhmm

/-- The per-line work of the loader loop (src/code.py lines 105-118):
`none` means the line was skipped, `some (key, record)` that it is stored
under `key`. -/
def parseFields : List String → Except PyError (Option (String × QuoteRecord))
  | p0 :: p1 :: p2 :: p3 :: p4 :: _ =>
    (normalize_hhmm (pyStrip p0)).bind (fun hk =>
      if hk.length = 5 ∧ hk.data.get? 2 = some ':' then
        Except.ok (some (hk, ⟨p1, p2, p3, p4⟩))
      else Except.ok none)
  | _ => Except.ok none

def parseLine (line : String) : Except PyError (Option (String × QuoteRecord)) :=
  if rstripCRLF line = "" ∨ (rstripCRLF line).data.head? = some '#' then
    Except.ok none
  else parseFields (pySplitMax '|' 4 (rstripCRLF line))

/-- One iteration of the loader loop acting on the mapping. -/
def loadLine (m : QuoteIndex) (line : String) : Except PyError QuoteIndex :=
  (parseLine line).map (fun o =>
    match o with
    | none => m
    | some (k, r) => setdefault_append m k r)

/-- `load_quotes_csv` from src/code.py lines 97-121, applied to the lines of
an already-opened source (the `except OSError` arm covers only `open`/read
failures and yields the empty mapping; it is not part of the per-line
processing modelled here). -/
def load_quotes_csv (lines : List String) : Except PyError QuoteIndex :=
  lines.foldlM loadLine []

/-- Whether a single line makes the loader raise (its `parseLine` result is
an error); this is independent of the mapping accumulated so far. -/
def lineRaises (line : String) : Bool :=
  match parseLine line with
  | Except.error _ => true
  | Except.ok _ => false

/-- Modelled from the spec (claim C9 wording): a zero-padded 5-character
`HH:MM` string denoting a valid 24-hour time,
`0 ≤ HH ≤ 23` and `0 ≤ MM ≤ 59`. -/
def spec_validTimeKey (s : String) : Bool :=
  match s.data with
  | [h1, h2, c, m1, m2] =>
    h1.isDigit && h2.isDigit && (c = ':') && m1.isDigit && m2.isDigit &&
    ((h1.toNat - '0'.toNat) * 10 + (h2.toNat - '0'.toNat) ≤ 23) &&
    ((m1.toNat - '0'.toNat) * 10 + (m2.toNat - '0'.toNat) ≤ 59)
  | _ => false

/-- The key `f"{h:02d}:{m:02d}"` used by `pick_for_time` and `render`. -/
def timeKey (h m : Nat) : String := natFmt02 h ++ ":" ++ natFmt02 m

/-- `pick_for_time` from src/code.py lines 239-249.  Python `if not lst`
treats a missing key (`None`) and an empty list alike, hence the `getD []`;
`none` as overall result stands for the exceptions the code could raise
(`StopIteration` of `next(iter(...))` on an empty dict, `ZeroDivisionError`
of `h % 0`). -/
def pick_for_time (qi : QuoteIndex) (h m : Nat) : Option QuoteRecord :=
  let l1 := (dictGet qi (timeKey h m)).getD []
  let l2 := if l1 = [] then
      (dictGet qi (timeKey h (m / UPDATE_MINUTES * UPDATE_MINUTES))).getD []
    else l1
  let lst := if l2 = [] then (qi.head?).map (fun p => p.2) else some l2
  match lst with
  | none => none
  | some l => l.get? (h % l.length)

/-- One label appended to the quote group: text at an anchored position.
The faux-bold second strike of a highlighted token is a second run at
`x + 1`. -/
structure PlacedRun where
  text : String
  x : Int
  y : Int
  bold : Bool
deriving DecidableEq

/-- The body of `flush_line` (src/code.py lines 174-191) once the vertical
bound has been checked: place each pending token at `(x, y)`, advancing `x`
by the measured token width plus one space width; a bold token is emitted
twice, the second time at `x + 1`. -/
def placeLine (measure : String → Nat × Nat) (spaceW : Nat) (y : Int) :
    Int → List (String × Bool) → List PlacedRun
  | _, [] => []
  | x, (txt, bold) :: rest =>
    ({ text := txt, x := x, y := y, bold := bold } ::
      (if bold then [{ text := txt, x := x + 1, y := y, bold := bold }]
       else [])) ++
      placeLine measure spaceW y (x + ((measure txt).1 : Int) + spaceW) rest

/-- The vertical-bound test of `flush_line`:
`y_max is not None and (y + line_h) > y_max`. -/
def vBlocked (yMax : Option Int) (y : Int) (lineH : Nat) : Bool :=
  match yMax with
  | none => false
  | some ym => y + lineH > ym

/-- The token loop of `layout_quote_into_group` (src/code.py lines
193-207), with the current vertical position, pending line and its
accumulated width as explicit state.  A failing `flush_line` clears the
pending tokens and returns from the whole function, so nothing more is
emitted. -/
def layoutTokens (measure : String → Nat × Nat) (spaceW lineH dispW : Nat)
    (yMax : Option Int) :
    List (String × Bool) → Int → List (String × Bool) → Nat → List PlacedRun
  | [], y, line, _ =>
    if line = [] then []
    else if vBlocked yMax y lineH then []
    else placeLine measure spaceW y (MARGIN : Int) line
  | (txt, bold) :: rest, y, line, lineW =>
    let w := (measure txt).1
    let nextW := if line = [] then w else lineW + spaceW + w
    if line ≠ [] ∧ MARGIN + nextW + MARGIN > dispW then
      if vBlocked yMax y lineH then []
      else
        placeLine measure spaceW y (MARGIN : Int) line ++
          layoutTokens measure spaceW lineH dispW yMax rest
            (y + lineH + 2) [(txt, bold)] w
    else layoutTokens measure spaceW lineH dispW yMax rest y
      (line ++ [(txt, bold)]) nextW

/-- `layout_quote_into_group` from src/code.py lines 152-207 as a pure
function from the quote text to the list of placed runs.  The
hardware-dependent `measure` (a label bounding box) is an injected function
returning `(width, height)`; `dispW` is `display.width`. -/
def layout_quote_into_group (measure : String → Nat × Nat) (dispW : Nat)
    (quote_text : String) (y_start : Int) (y_max : Option Int) :
    List PlacedRun :=
  let pm := split_caret_span quote_text
  let tokens :=
    (if pm.1 = "" then [] else (pySplitWs pm.1).map (fun w => (w, false))) ++
    (match pm.2.1 with | some t => [(t, true)] | none => []) ++
    (if pm.2.2 = "" then [] else (pySplitWs pm.2.2).map (fun w => (w, false)))
  let sw := measure " "
  layoutTokens measure sw.1 sw.2 dispW y_max tokens y_start [] 0

/-- The replacement table of `sanitize_ascii` (src/code.py lines 224-232)
applied to one character. -/
def sanitize_repl (c : Char) : String :=
  if c = '—' then "-"
  else if c = '–' then "-"
  else if c = '…' then "..."
  else if c = '“' then "\""
  else if c = '”' then "\""
  else if c = '‘' then "'"
  else if c = '’' then "'"
  else if c = '•' then "*"
  else if c = '·' then "*"
  else if c = ' ' then " "
  else if c.toNat < 128 then String.singleton c
  else "?"

/-- `sanitize_ascii` from src/code.py lines 220-233. -/
def sanitize_ascii (s : String) : String :=
  if s = "" then s
  else String.join (s.data.map sanitize_repl)

/-- `fmt_time` from src/code.py lines 210-217. -/
def fmt_time (h m : Nat) : String :=
  if TIME_24H then natFmt02 h ++ ":" ++ natFmt02 m
  else
    let suf := if h < 12 then "AM" else "PM"
    let hh := h % 12
    let hh := if hh = 0 then 12 else hh
    toString hh ++ ":" ++ natFmt02 m ++ " " ++ suf

/-- Configuration constant from the source: `MIN_REFRESH_GAP = 0.5`. -/
def MIN_REFRESH_GAP : ℚ := 1 / 2

/-- The environment `safe_refresh` observes: the value of `time.monotonic()`
at entry (`t1`) and after the retry sleep (`t2`), and whether each
`display.refresh()` call succeeds or raises the transient busy
`RuntimeError`. -/
structure HwEnv where
  t1 : ℚ
  ok1 : Bool
  t2 : ℚ
  ok2 : Bool
deriving DecidableEq

/-- `safe_refresh` from src/code.py lines 78-94, as a function from the
hardware environment and the `_last_refresh` timestamp to the new timestamp
together with the number of `display.refresh()` calls performed. -/
def safe_refresh (env : HwEnv) (lastRefresh : ℚ) : ℚ × Nat :=
  if env.t1 - lastRefresh < MIN_REFRESH_GAP then (lastRefresh, 0)
  else if env.ok1 then (env.t1, 1)
  else if env.ok2 then (env.t2, 2)
  else (lastRefresh, 2)

/-- The process-wide mutable state `render` reads and writes: the
`_last_bucket` global, the two labels (text and anchored position), the
rebuilt quote group and the `_last_refresh` timestamp. -/
structure ClockState where
  lastBucket : Option Nat
  metaText : String
  metaPos : Int × Int
  timeText : String
  timePos : Int × Int
  quoteRuns : List PlacedRun
  lastRefresh : ℚ
deriving DecidableEq

/-- `render` from src/code.py lines 251-283.  The quote index, the measure
function, the display dimensions, the hardware environment and the current
RTC time are explicit inputs; `none` models an exception escaping
`pick_for_time`. -/
def render (qi : QuoteIndex) (measure : String → Nat × Nat)
    (dispW dispH : Nat) (hw : HwEnv) (force : Bool)
    (live : Option (Nat × Nat)) (nowH nowM : Nat) (st : ClockState) :
    Option ClockState :=
  let hm := match live with | some t => t | none => (nowH, nowM)
  let bucket := hm.2 / UPDATE_MINUTES * UPDATE_MINUTES
  if force = false ∧ live = none ∧ st.lastBucket = some bucket then some st
  else
    match pick_for_time qi hm.1 hm.2 with
    | none => none
    | some r =>
      let metaText := sanitize_ascii (r.work ++ " - " ++ r.author)
      let metaY : Int := (dispH : Int) - MARGIN
      let metaH := (measure metaText).2
      let timeText := sanitize_ascii ("Time: " ++ fmt_time hm.1 hm.2)
      let timeY : Int := metaY - metaH - 4
      let runs := layout_quote_into_group measure dispW r.text (MARGIN : Int)
        (some (timeY - 8))
      let refreshed := safe_refresh hw st.lastRefresh
      some { lastBucket := if live = none then some bucket else st.lastBucket,
             metaText := metaText, metaPos := ((MARGIN : Int), metaY),
             timeText := timeText, timePos := ((MARGIN : Int), timeY),
             quoteRuns := runs, lastRefresh := refreshed.1 }

/-- The nine-field `time.struct_time` held by the RTC. -/
structure StructTime where
  tm_year : Int
  tm_mon : Int
  tm_mday : Int
  tm_hour : Int
  tm_min : Int
  tm_sec : Int
  tm_wday : Int
  tm_yday : Int
  tm_isdst : Int
deriving DecidableEq

/-- `set_now` from src/code.py lines 64-65: the struct_time written to the
RTC; the Python defaults `wday = yday = isdst = -1` are passed explicitly
by the model. -/
def set_now (year month mday hour minute second wday yday isdst : Int) :
    StructTime :=
  ⟨year, month, mday, hour, minute, second, wday, yday, isdst⟩

/-- The clock write of `commit_time` (src/code.py lines 315-321):
`set_now(now.tm_year, now.tm_mon, now.tm_mday, edit_h, edit_m, 0)` with the
current clock value `now`; the subsequent UI resets (`set_mode`, label
text, forced re-render) do not touch the clock and are outside this
model. -/
def commit_time (now : StructTime) (edit_h edit_m : Int) : StructTime :=
  set_now now.tm_year now.tm_mon now.tm_mday edit_h edit_m 0 (-1) (-1) (-1)

/-- A synthetic fixed-width measure for concrete layout computations:
every character one unit wide, every token 8 units tall. -/
def unitMeasure (s : String) : Nat × Nat := (s.length, 8)

/-- A concrete scheduler state used to instantiate the render theorems. -/
def wClockState : ClockState :=
  { lastBucket := some 0, metaText := "", metaPos := (0, 0), timeText := "",
    timePos := (0, 0), quoteRuns := [], lastRefresh := 0 }

-- Characterisation of `pyFind` needed for the splitter proofs.

theorem pyFind_eq_none {c : Char} {l : List Char} :
    pyFind c l = none ↔ c ∉ l := by
  induction l with
  | nil => simp [pyFind]
  | cons x xs ih =>
    simp only [pyFind]
    by_cases hx : x = c
    · simp [hx]
    · simp [hx, Option.map_eq_none', ih, Ne.symm hx]

theorem pyFind_take {c : Char} {l : List Char} {a : Nat}
    (h : pyFind c l = some a) :
    l.take a = l.takeWhile (fun x => x ≠ c) := by
  induction l generalizing a with
  | nil => simp [pyFind] at h
  | cons x xs ih =>
    simp only [pyFind] at h
    by_cases hx : x = c
    · subst hx
      rw [if_pos rfl, Option.some.injEq] at h
      subst h
      simp [List.takeWhile_cons]
    · rw [if_neg hx, Option.map_eq_some'] at h
      obtain ⟨a', ha', rfl⟩ := h
      simp [List.takeWhile_cons, hx, List.take_succ_cons, ih ha']

theorem pyFind_drop {c : Char} {l : List Char} {a : Nat}
    (h : pyFind c l = some a) :
    l.drop a = c :: l.drop (a + 1) ∧
    l.drop (a + 1) = (l.dropWhile (fun x => x ≠ c)).tail := by
  induction l generalizing a with
  | nil => simp [pyFind] at h
  | cons x xs ih =>
    simp only [pyFind] at h
    by_cases hx : x = c
    · subst hx
      rw [if_pos rfl, Option.some.injEq] at h
      subst h
      simp [List.dropWhile_cons]
    · rw [if_neg hx, Option.map_eq_some'] at h
      obtain ⟨a', ha', rfl⟩ := h
      have := ih ha'
      simpa [List.dropWhile_cons, hx] using this

theorem mem_takeWhile_not_caret {l : List Char} {x : Char}
    (h : x ∈ l.takeWhile (fun y => y ≠ '^')) : x ≠ '^' := by
  have := List.mem_takeWhile_imp h
  simpa using this

theorem filter_not_caret_self {l : List Char}
    (h : ∀ x ∈ l, x ≠ '^') : l.filter (fun c => c ≠ '^') = l := by
  apply List.filter_eq_self.mpr
  intro a ha
  simpa using h a ha

theorem not_caret_mem_filter {l : List Char} :
    '^' ∉ l.filter (fun c => c ≠ '^') := by
  intro h
  have := List.of_mem_filter h
  simp at this

/-- If a string holds no caret, the splitter returns it untouched. -/
theorem split_caret_span_of_no_caret {t : String} (h : '^' ∉ t.data) :
    split_caret_span t = (t, none, "") := by
  unfold split_caret_span
  rw [pyFind_eq_none.mpr h]

theorem count_pos_of_two {l : List Char} (h : 2 ≤ l.count '^') : '^' ∈ l := by
  have : 0 < l.count '^' := lt_of_lt_of_le (by norm_num) h
  exact List.count_pos_iff.mp this

theorem count_split {l : List Char} {a : Nat} (h : pyFind '^' l = some a) :
    l.count '^' = 1 + (l.drop (a + 1)).count '^' := by
  have htake := pyFind_take h
  have hdrop := (pyFind_drop h).1
  have hdecomp : l = l.take a ++ l.drop a := (List.take_append_drop a l).symm
  have hcnt_take : (l.take a).count '^' = 0 := by
    apply List.count_eq_zero.mpr
    intro hmem
    rw [htake] at hmem
    exact mem_takeWhile_not_caret hmem rfl
  calc l.count '^' = (l.take a ++ l.drop a).count '^' := by rw [← hdecomp]
    _ = (l.take a).count '^' + (l.drop a).count '^' := List.count_append _ _ _
    _ = (l.drop a).count '^' := by rw [hcnt_take]; ring
    _ = ('^' :: l.drop (a + 1)).count '^' := by rw [hdrop]
    _ = 1 + (l.drop (a + 1)).count '^' := by
        rw [List.count_cons_self]; ring

theorem count_one_rest_none {l : List Char} {a : Nat}
    (h1 : l.count '^' = 1) (ha : pyFind '^' l = some a) :
    pyFind '^' (l.drop (a + 1)) = none := by
  have := count_split ha
  rw [h1] at this
  have hz : (l.drop (a + 1)).count '^' = 0 := by omega
  exact pyFind_eq_none.mpr (List.count_eq_zero.mp hz)

theorem count_two_rest_some {l : List Char} {a : Nat}
    (h2 : 2 ≤ l.count '^') (ha : pyFind '^' l = some a) :
    ∃ b, pyFind '^' (l.drop (a + 1)) = some b := by
  have := count_split ha
  have hpos : 0 < (l.drop (a + 1)).count '^' := by omega
  have hmem : '^' ∈ l.drop (a + 1) := List.count_pos_iff.mp hpos
  cases hb : pyFind '^' (l.drop (a + 1)) with
  | none => exact absurd hmem (pyFind_eq_none.mp hb)
  | some b => exact ⟨b, rfl⟩

theorem filter_takeWhile_not_caret (l : List Char) :
    (l.takeWhile (fun c => c ≠ '^')).filter (fun c => c ≠ '^') =
      l.takeWhile (fun c => c ≠ '^') :=
  filter_not_caret_self (fun _ hx => mem_takeWhile_not_caret hx)

/-- C5: `split_caret_span` by case analysis on the number of caret
sentinels: zero carets returns the text unchanged with no highlight; exactly
one caret returns the text with the caret removed and no highlight; two or
more carets return the text before the first caret, the span strictly
between the first and second carets, and the text after the second caret
with any further carets stripped; and on the concrete input
`"before ^highlight^ after"` the result is
`("before ", some "highlight", " after")`. -/
theorem C5_split_caret_span_cases (s : String) :
    (s.data.count '^' = 0 → split_caret_span s = (s, none, "")) ∧
    (s.data.count '^' = 1 → split_caret_span s = (removeCarets s, none, "")) ∧
    (2 ≤ s.data.count '^' →
      split_caret_span s =
        (⟨s.data.takeWhile (fun c => c ≠ '^')⟩,
         some ⟨((s.data.dropWhile (fun c => c ≠ '^')).tail).takeWhile
                 (fun c => c ≠ '^')⟩,
         ⟨(((((s.data.dropWhile (fun c => c ≠ '^')).tail).dropWhile
                 (fun c => c ≠ '^')).tail)).filter (fun c => c ≠ '^')⟩)) ∧
    split_caret_span "before ^highlight^ after" =
      ("before ", some "highlight", " after") := by
  refine ⟨?_, ?_, ?_, by decide⟩
  · intro h0
    exact split_caret_span_of_no_caret (List.count_eq_zero.mp h0)
  · intro h1
    have hmem : '^' ∈ s.data := List.count_pos_iff.mp (by omega)
    cases ha : pyFind '^' s.data with
    | none => exact absurd hmem (pyFind_eq_none.mp ha)
    | some a =>
      have hrest := count_one_rest_none h1 ha
      simp only [split_caret_span, ha, hrest]
      rfl
  · intro h2
    have hmem : '^' ∈ s.data := count_pos_of_two h2
    cases ha : pyFind '^' s.data with
    | none => exact absurd hmem (pyFind_eq_none.mp ha)
    | some a =>
      obtain ⟨b, hb⟩ := count_two_rest_some h2 ha
      simp only [split_caret_span, ha, hb]
      have htail : s.data.drop (a + 1) =
          (s.data.dropWhile (fun c => c ≠ '^')).tail := (pyFind_drop ha).2
      have hpre : (s.data.take a).filter (fun c => c ≠ '^') =
          s.data.takeWhile (fun c => c ≠ '^') := by
        rw [pyFind_take ha]
        exact filter_takeWhile_not_caret _
      have hmid : ((s.data.drop (a + 1)).take b).filter (fun c => c ≠ '^') =
          ((s.data.dropWhile (fun c => c ≠ '^')).tail).takeWhile
            (fun c => c ≠ '^') := by
        rw [pyFind_take hb, filter_takeWhile_not_caret, htail]
      have hpost : (s.data.drop (a + 1)).drop (b + 1) =
          ((((s.data.dropWhile (fun c => c ≠ '^')).tail).dropWhile
              (fun c => c ≠ '^')).tail) := by
        rw [(pyFind_drop hb).2, htail]
      rw [hpre, hmid, hpost]

/-- Closed instance of C5: the two-caret clause evaluated on a concrete
string, with its hypothesis discharged by computation. -/
theorem C5_witness :
    2 ≤ "x^y^z".data.count '^' ∧
    split_caret_span "x^y^z" =
      (⟨"x^y^z".data.takeWhile (fun c => c ≠ '^')⟩,
       some ⟨(("x^y^z".data.dropWhile (fun c => c ≠ '^')).tail).takeWhile
               (fun c => c ≠ '^')⟩,
       ⟨((((("x^y^z".data.dropWhile (fun c => c ≠ '^')).tail).dropWhile
               (fun c => c ≠ '^')).tail)).filter (fun c => c ≠ '^')⟩) :=
  ⟨by decide, (C5_split_caret_span_cases "x^y^z").2.2.1 (by decide)⟩

theorem split_components_no_caret (s : String) :
    '^' ∉ (split_caret_span s).1.data ∧
    (∀ m ∈ (split_caret_span s).2.1, '^' ∉ m.data) ∧
    '^' ∉ (split_caret_span s).2.2.data := by
  cases ha : pyFind '^' s.data with
  | none =>
    simp only [split_caret_span, ha]
    refine ⟨pyFind_eq_none.mp ha, ?_, ?_⟩ <;> simp
  | some a =>
    cases hb : pyFind '^' (s.data.drop (a + 1)) with
    | none =>
      simp only [split_caret_span, ha, hb]
      refine ⟨not_caret_mem_filter, ?_, ?_⟩ <;> simp
    | some b =>
      simp only [split_caret_span, ha, hb]
      refine ⟨not_caret_mem_filter, ?_, not_caret_mem_filter⟩
      intro m hm
      simp only [Option.mem_def, Option.some.injEq] at hm
      rw [← hm]
      exact not_caret_mem_filter

/-- C6: `split_caret_span` is idempotent on each component of its own
output: `pre`, `post` and (when present) `mid` contain no caret, so running
the splitter on any of them returns it unchanged with no highlight. -/
theorem C6_split_caret_span_idem (text pre post : String) (mid : Option String)
    (h : split_caret_span text = (pre, mid, post)) :
    split_caret_span pre = (pre, none, "") ∧
    split_caret_span post = (post, none, "") ∧
    ∀ m, mid = some m → split_caret_span m = (m, none, "") := by
  have hc := split_components_no_caret text
  rw [h] at hc
  refine ⟨split_caret_span_of_no_caret hc.1,
          split_caret_span_of_no_caret hc.2.2, ?_⟩
  intro m hm
  exact split_caret_span_of_no_caret (hc.2.1 m (by simp [hm]))

/-- Closed instance of C6: idempotence on the components produced by
splitting `"a^b^c"`. -/
theorem C6_witness :
    split_caret_span "a" = ("a", none, "") ∧
    split_caret_span "c" = ("c", none, "") ∧
    split_caret_span "b" = ("b", none, "") := by
  have h := C6_split_caret_span_idem "a^b^c" "a" "c" (some "b") (by decide)
  exact ⟨h.1, h.2.1, h.2.2 "b" rfl⟩

/-- C1: contrary to the claim (and to the format stated in the header
comment of src/code.py, `hhmm|quote|work|author|tag`), the loader DROPS a
record whose time field is the colon-less 4-digit `0900`: neither
normalization branch applies, so the load of that single line produces the
empty mapping.  With the time field written `09:00`, the intended pipeline
works: the record is stored, selected at hour 9 minute 0, and its text
splits into `("Hello ", some "world", ".")`. -/
theorem C1_hhmm_time_field_dropped :
    load_quotes_csv ["0900|Hello ^world^.|Book|Author|tag"] = Except.ok [] ∧
    load_quotes_csv ["09:00|Hello ^world^.|Book|Author|tag"] =
      Except.ok [("09:00", [⟨"Hello ^world^.", "Book", "Author", "tag"⟩])] ∧
    pick_for_time [("09:00", [⟨"Hello ^world^.", "Book", "Author", "tag"⟩])]
        9 0 = some ⟨"Hello ^world^.", "Book", "Author", "tag"⟩ ∧
    split_caret_span "Hello ^world^." = ("Hello ", some "world", ".") := by
  exact ⟨by rfl, by rfl, by rfl, by rfl⟩

theorem parseLine_ok_of_not_raises {l : String} (h : lineRaises l = false) :
    ∃ o, parseLine l = Except.ok o := by
  unfold lineRaises at h
  cases hp : parseLine l with
  | error e => rw [hp] at h; simp at h
  | ok o => exact ⟨o, rfl⟩

theorem load_fold_ok (lines : List String) :
    ∀ m : QuoteIndex, (∀ l ∈ lines, lineRaises l = false) →
      ∃ qi, List.foldlM loadLine m lines = Except.ok qi := by
  induction lines with
  | nil => intro m _; exact ⟨m, rfl⟩
  | cons l ls ih =>
    intro m h
    obtain ⟨o, ho⟩ := parseLine_ok_of_not_raises (h l (List.mem_cons_self l ls))
    obtain ⟨m', hload⟩ : ∃ m', loadLine m l = Except.ok m' := by
      unfold loadLine
      rw [ho]
      exact ⟨_, rfl⟩
    obtain ⟨qi, hqi⟩ := ih m' (fun x hx => h x (List.mem_cons_of_mem _ hx))
    refine ⟨qi, ?_⟩
    rw [List.foldlM_cons, hload]
    simpa using hqi

/-- C2 counterexample: the single line `"a:1x|q|w|a|t"` has 5 fields and a
4-character time field with a colon at index 1, so the loader runs
`int("a")`, which raises `ValueError`; the whole load aborts instead of
skipping the line. -/
theorem C2_counterexample :
    load_quotes_csv ["a:1x|q|w|a|t"] = Except.error PyError.valueError := by
  rfl

/-- C2 as amended: a line with fewer than 5 pipe-separated fields is skipped
with the mapping unchanged and loading continues, and a load over lines
none of which takes the raising time-normalization path returns normally;
but (per the counterexample) a time field of length 4 with a colon at
index 1 whose parts do not parse as integers aborts the whole load with
`ValueError`. -/
theorem C2_load_error_handling :
    (∀ lines : List String, (∀ l ∈ lines, lineRaises l = false) →
        ∃ qi, load_quotes_csv lines = Except.ok qi) ∧
    (∀ (m : QuoteIndex) (line : String),
        (pySplitMax '|' 4 (rstripCRLF line)).length < 5 →
        loadLine m line = Except.ok m) := by
  constructor
  · intro lines h
    exact load_fold_ok lines [] h
  · intro m line hlen
    unfold loadLine parseLine
    by_cases hc : rstripCRLF line = "" ∨ (rstripCRLF line).data.head? = some '#'
    · rw [if_pos hc]; rfl
    · rw [if_neg hc]
      rcases hps : pySplitMax '|' 4 (rstripCRLF line) with
        _ | ⟨p0, _ | ⟨p1, _ | ⟨p2, _ | ⟨p3, _ | ⟨p4, rest⟩⟩⟩⟩⟩
      · rfl
      · rfl
      · rfl
      · rfl
      · rfl
      · rw [hps] at hlen
        simp only [List.length_cons] at hlen
        omega

/-- Closed instance of C2 as amended: a mixed dataset with a well-formed
record, a short line, a blank line and a comment loads without error, and
the short line alone leaves the mapping untouched. -/
theorem C2_witness :
    (∀ l ∈ ["09:00|q|w|a|t", "short", "", "# note"], lineRaises l = false) ∧
    (∃ qi, load_quotes_csv ["09:00|q|w|a|t", "short", "", "# note"] =
        Except.ok qi) ∧
    loadLine [] "short" = Except.ok [] :=
  ⟨by decide, C2_load_error_handling.1 _ (by decide),
   C2_load_error_handling.2 [] "short" (by decide)⟩

/-- C9 counterexample: a 5-character time field with a colon at index 2 is
stored verbatim without any digit or range validation, so the line
`"ab:cd|q|w|a|t"` produces the key `"ab:cd"`, which is not a valid
24-hour `HH:MM` time. -/
theorem C9_counterexample :
    load_quotes_csv ["ab:cd|q|w|a|t"] =
      Except.ok [("ab:cd", [⟨"q", "w", "a", "t"⟩])] ∧
    spec_validTimeKey "ab:cd" = false := by
  exact ⟨by rfl, by rfl⟩

theorem parseLine_key_shape {line k : String} {r : QuoteRecord}
    (h : parseLine line = Except.ok (some (k, r))) :
    k.length = 5 ∧ k.data.get? 2 = some ':' := by
  unfold parseLine at h
  by_cases hc : rstripCRLF line = "" ∨ (rstripCRLF line).data.head? = some '#'
  · rw [if_pos hc] at h
    exact absurd h (by simp)
  · rw [if_neg hc] at h
    rcases hps : pySplitMax '|' 4 (rstripCRLF line) with
      _ | ⟨p0, _ | ⟨p1, _ | ⟨p2, _ | ⟨p3, _ | ⟨p4, rest⟩⟩⟩⟩⟩ <;>
      rw [hps] at h <;> simp only [parseFields] at h
    · exact absurd h (by simp)
    · exact absurd h (by simp)
    · exact absurd h (by simp)
    · exact absurd h (by simp)
    · exact absurd h (by simp)
    · cases hn : normalize_hhmm (pyStrip p0) with
      | error e => rw [hn] at h; exact absurd h (by simp [Except.bind])
      | ok hk =>
        rw [hn] at h
        simp only [Except.bind] at h
        by_cases hsh : hk.length = 5 ∧ hk.data.get? 2 = some ':'
        · rw [if_pos hsh] at h
          simp only [Except.ok.injEq, Option.some.injEq, Prod.mk.injEq] at h
          rw [← h.1]
          exact hsh
        · rw [if_neg hsh] at h
          simp at h

theorem setdefault_append_keys {m : QuoteIndex} {k : String} {r : QuoteRecord}
    {p : String × List QuoteRecord} (hp : p ∈ setdefault_append m k r) :
    p.1 = k ∨ ∃ q ∈ m, p.1 = q.1 := by
  unfold setdefault_append at hp
  split at hp
  · obtain ⟨q, hq, hpe⟩ := List.mem_map.mp hp
    by_cases hqk : q.1 = k
    · left
      rw [← hpe]
      simp [hqk]
    · right
      refine ⟨q, hq, ?_⟩
      rw [← hpe]
      simp [hqk]
  · rcases List.mem_append.mp hp with h1 | h2
    · right
      exact ⟨p, h1, rfl⟩
    · left
      simp only [List.mem_singleton] at h2
      rw [h2]

theorem load_fold_shape (lines : List String) :
    ∀ m qi : QuoteIndex,
      (∀ p ∈ m, p.1.length = 5 ∧ p.1.data.get? 2 = some ':') →
      List.foldlM loadLine m lines = Except.ok qi →
      ∀ p ∈ qi, p.1.length = 5 ∧ p.1.data.get? 2 = some ':' := by
  induction lines with
  | nil =>
    intro m qi hm h
    simp only [List.foldlM_nil] at h
    have : m = qi := by simpa [pure, Except.pure] using h
    rw [← this]
    exact hm
  | cons l ls ih =>
    intro m qi hm h
    rw [List.foldlM_cons] at h
    cases hl : loadLine m l with
    | error e =>
      rw [hl] at h
      exact absurd h (by simp [Bind.bind, Except.bind])
    | ok m' =>
      rw [hl] at h
      have h' : List.foldlM loadLine m' ls = Except.ok qi := by
        simpa [Bind.bind, Except.bind] using h
      refine ih m' qi ?_ h'
      intro p hp
      unfold loadLine at hl
      cases hpl : parseLine l with
      | error e =>
        rw [hpl] at hl
        exact absurd hl (by simp [Except.map])
      | ok o =>
        rw [hpl] at hl
        cases o with
        | none =>
          have hmm' : m = m' := by simpa [Except.map] using hl
          rw [← hmm'] at hp
          exact hm p hp
        | some kr =>
          obtain ⟨k, r⟩ := kr
          have hmm' : setdefault_append m k r = m' := by
            simpa [Except.map] using hl
          rw [← hmm'] at hp
          rcases setdefault_append_keys hp with hk | ⟨q, hq, hpq⟩
          · rw [hk]
            exact parseLine_key_shape hpl
          · rw [hpq]
            exact hm q hq

/-- C9 as amended: every key of a successfully loaded index is a
5-character string whose third character is a colon — the only shape check
the loader performs; digits and the 0-23 / 0-59 ranges are not validated
(see the counterexample), so keys such as `"ab:cd"` or `"09:99"` can
occur. -/
theorem C9_key_shape (lines : List String) (qi : QuoteIndex)
    (h : load_quotes_csv lines = Except.ok qi) :
    ∀ p ∈ qi, p.1.length = 5 ∧ p.1.data.get? 2 = some ':' :=
  load_fold_shape lines [] qi (by simp) h

/-- Closed instance of C9 as amended: loading `"9:15|q|w|a|t"` produces the
key `"09:15"`, which has the guaranteed shape. -/
theorem C9_witness :
    ("09:15".length = 5 ∧ "09:15".data.get? 2 = some ':') :=
  C9_key_shape ["9:15|q|w|a|t"] [("09:15", [⟨"q", "w", "a", "t"⟩])] (by rfl)
    ("09:15", [⟨"q", "w", "a", "t"⟩]) (by simp)

theorem dictGet_mem {qi : QuoteIndex} {k : String} {l : List QuoteRecord}
    (h : dictGet qi k = some l) : ∃ p ∈ qi, p.2 = l := by
  unfold dictGet at h
  cases hf : qi.find? (fun p => p.1 = k) with
  | none => rw [hf] at h; simp at h
  | some p =>
    rw [hf] at h
    simp only [Option.map_some', Option.some.injEq] at h
    exact ⟨p, List.mem_of_find?_eq_some hf, h⟩

theorem get_mod_mem {l : List QuoteRecord} (hne : l ≠ []) (n : Nat) :
    ∃ r, l.get? (n % l.length) = some r ∧ r ∈ l := by
  have hlen : 0 < l.length := List.length_pos.mpr hne
  have hlt : n % l.length < l.length := Nat.mod_lt _ hlen
  cases hg : l.get? (n % l.length) with
  | none =>
    rw [List.get?_eq_none] at hg
    omega
  | some r => exact ⟨r, rfl, List.get?_mem hg⟩

/-- C3: for a non-empty index all of whose lists are non-empty (the
invariant the loader establishes), `pick_for_time`:
returns the element at position `hour mod length` of the exact key's list
when the exact `HH:MM` key is present; otherwise the same rotation applied
to the list of the key quantized down to the `UPDATE_MINUTES` bucket, when
present; and in every case it returns some record drawn from one of the
index's lists — it never raises. -/
theorem C3_pick_for_time (qi : QuoteIndex) (h m : Nat)
    (hh : h ≤ 23) (hm : m ≤ 59) (hne : qi ≠ [])
    (hinv : ∀ p ∈ qi, p.2 ≠ []) :
    (∀ l, dictGet qi (timeKey h m) = some l →
        pick_for_time qi h m = l.get? (h % l.length)) ∧
    (dictGet qi (timeKey h m) = none →
      ∀ l, dictGet qi (timeKey h (m / UPDATE_MINUTES * UPDATE_MINUTES)) =
          some l →
        pick_for_time qi h m = l.get? (h % l.length)) ∧
    ∃ r, pick_for_time qi h m = some r ∧ ∃ p ∈ qi, r ∈ p.2 := by
  have hexact : ∀ l, dictGet qi (timeKey h m) = some l →
      pick_for_time qi h m = l.get? (h % l.length) := by
    intro l hl
    obtain ⟨p, hp, hpl⟩ := dictGet_mem hl
    have hlne : l ≠ [] := hpl ▸ hinv p hp
    simp only [pick_for_time, hl, Option.getD_some, if_neg hlne]
  have hbucket : dictGet qi (timeKey h m) = none →
      ∀ l, dictGet qi (timeKey h (m / UPDATE_MINUTES * UPDATE_MINUTES)) =
          some l →
        pick_for_time qi h m = l.get? (h % l.length) := by
    intro hnone l hl
    obtain ⟨p, hp, hpl⟩ := dictGet_mem hl
    have hlne : l ≠ [] := hpl ▸ hinv p hp
    simp only [pick_for_time, hnone, Option.getD_none, hl, Option.getD_some,
      if_true, eq_self_iff_true, if_neg hlne]
  refine ⟨hexact, hbucket, ?_⟩
  cases hex : dictGet qi (timeKey h m) with
  | some l =>
    obtain ⟨p, hp, hpl⟩ := dictGet_mem hex
    have hlne : l ≠ [] := hpl ▸ hinv p hp
    obtain ⟨r, hr, hrl⟩ := get_mod_mem hlne h
    exact ⟨r, by rw [hexact l hex, hr], p, hp, hpl ▸ hrl⟩
  | none =>
    cases hbk : dictGet qi (timeKey h (m / UPDATE_MINUTES * UPDATE_MINUTES))
        with
    | some l =>
      obtain ⟨p, hp, hpl⟩ := dictGet_mem hbk
      have hlne : l ≠ [] := hpl ▸ hinv p hp
      obtain ⟨r, hr, hrl⟩ := get_mod_mem hlne h
      exact ⟨r, by rw [hbucket hex l hbk, hr], p, hp, hpl ▸ hrl⟩
    | none =>
      cases qi with
      | nil => exact absurd rfl hne
      | cons p rest =>
        have hpne : p.2 ≠ [] := hinv p (List.mem_cons_self p rest)
        obtain ⟨r, hr, hrl⟩ := get_mod_mem hpne h
        refine ⟨r, ?_, p, List.mem_cons_self p rest, hrl⟩
        simp only [pick_for_time, hex, hbk, Option.getD_none, if_pos rfl,
          List.head?, Option.map_some']
        exact hr

/-- Closed instance of C3: the bucket-fallback clause at hour 9 minute 47
over an index holding only the key `09:45`. -/
theorem C3_witness :
    pick_for_time [("09:45", [⟨"q", "w", "a", "t"⟩])] 9 47 =
      some ⟨"q", "w", "a", "t"⟩ := by
  have h := (C3_pick_for_time [("09:45", [⟨"q", "w", "a", "t"⟩])] 9 47
    (by norm_num) (by norm_num) (by simp) (by simp)).2.1 (by rfl)
    [⟨"q", "w", "a", "t"⟩] (by rfl)
  simpa using h

theorem placeLine_y {measure : String → Nat × Nat} {spaceW : Nat} {y : Int}
    {line : List (String × Bool)} {x : Int} {r : PlacedRun}
    (h : r ∈ placeLine measure spaceW y x line) : r.y = y := by
  induction line generalizing x with
  | nil => simp [placeLine] at h
  | cons t rest ih =>
    obtain ⟨txt, bold⟩ := t
    simp only [placeLine] at h
    rcases List.mem_append.mp h with h1 | h2
    · rcases List.mem_cons.mp h1 with rfl | h3
      · rfl
      · by_cases hb : bold
        · rw [if_pos hb] at h3
          simp only [List.mem_singleton] at h3
          rw [h3]
        · rw [if_neg hb] at h3
          simp at h3
    · exact ih h2

theorem not_vBlocked_le {ym y : Int} {lineH : Nat}
    (h : ¬ vBlocked (some ym) y lineH = true) : y + lineH ≤ ym := by
  simp [vBlocked] at h
  exact h

theorem layoutTokens_bound {measure : String → Nat × Nat}
    {spaceW lineH dispW : Nat} {ym : Int} (tokens : List (String × Bool)) :
    ∀ (y : Int) (line : List (String × Bool)) (lineW : Nat) (r : PlacedRun),
      r ∈ layoutTokens measure spaceW lineH dispW (some ym) tokens y line
        lineW →
      r.y + lineH ≤ ym := by
  induction tokens with
  | nil =>
    intro y line lineW r hr
    simp only [layoutTokens] at hr
    by_cases hl : line = []
    · rw [if_pos hl] at hr
      simp at hr
    · rw [if_neg hl] at hr
      by_cases hb : vBlocked (some ym) y lineH = true
      · rw [if_pos hb] at hr
        simp at hr
      · rw [if_neg hb] at hr
        rw [placeLine_y hr]
        exact not_vBlocked_le hb
  | cons t rest ih =>
    intro y line lineW r hr
    obtain ⟨txt, bold⟩ := t
    simp only [layoutTokens] at hr
    by_cases hcond : line ≠ [] ∧
        MARGIN + (if line = [] then (measure txt).1
          else lineW + spaceW + (measure txt).1) + MARGIN > dispW
    · rw [if_pos hcond] at hr
      by_cases hb : vBlocked (some ym) y lineH = true
      · rw [if_pos hb] at hr
        simp at hr
      · rw [if_neg hb] at hr
        rcases List.mem_append.mp hr with h1 | h2
        · rw [placeLine_y h1]
          exact not_vBlocked_le hb
        · exact ih _ _ _ _ h2
    · rw [if_neg hcond] at hr
      exact ih _ _ _ _ hr

/-- C4: each run `layout_quote_into_group` emits under a vertical bound
`y_max` satisfies `y + line_height ≤ y_max` (the line height being the
height measured for a single space): a line that would cross the bound is
discarded whole, nothing after it is placed, and the function returns
normally. -/
theorem C4_layout_vertical_bound (measure : String → Nat × Nat)
    (dispW : Nat) (text : String) (y0 ym : Int) (r : PlacedRun)
    (hr : r ∈ layout_quote_into_group measure dispW text y0 (some ym)) :
    r.y + (measure " ").2 ≤ ym := by
  simp only [layout_quote_into_group] at hr
  exact layoutTokens_bound _ _ _ _ _ hr

/-- Closed instance of C4: a concrete run produced inside the bound. -/
theorem C4_witness :
    (({ text := "Hi", x := 10, y := 0, bold := false } : PlacedRun) ∈
      layout_quote_into_group unitMeasure 100 "Hi" 0 (some 20)) ∧
    (0 : Int) + (unitMeasure " ").2 ≤ 20 :=
  ⟨by decide,
   C4_layout_vertical_bound unitMeasure 100 "Hi" 0 20
     { text := "Hi", x := 10, y := 0, bold := false } (by decide)⟩

/-- C7: once `_last_bucket` holds the bucket of the current minute, a
`render` call that is not forced and has no live preview returns the state
unchanged: no quote is re-laid-out, no label is touched, no refresh
happens. -/
theorem C7_render_idempotent (qi : QuoteIndex) (measure : String → Nat × Nat)
    (dispW dispH : Nat) (hw : HwEnv) (nowH nowM : Nat) (st : ClockState)
    (h : st.lastBucket = some (nowM / UPDATE_MINUTES * UPDATE_MINUTES)) :
    render qi measure dispW dispH hw false none nowH nowM st = some st := by
  simp [render, h]

/-- Closed instance of C7: a state whose recorded bucket is 0 is returned
unchanged when rendering at minute 3. -/
theorem C7_witness :
    render [("00:00", [⟨"t", "w", "a", "g"⟩])] unitMeasure 296 128
      ⟨0, true, 0, true⟩ false none 0 3 wClockState = some wClockState :=
  C7_render_idempotent [("00:00", [⟨"t", "w", "a", "g"⟩])] unitMeasure 296 128
    ⟨0, true, 0, true⟩ 0 3 wClockState (by rfl)

/-- C8: `safe_refresh` never propagates a failure: below the minimum gap it
performs no refresh call and leaves the timestamp unchanged; past the gap,
a busy first attempt is followed by exactly one retry (two hardware calls
in total), and when the retry also fails the function returns normally with
`_last_refresh` unchanged. -/
theorem C8_safe_refresh (env : HwEnv) (last : ℚ) :
    (env.t1 - last < MIN_REFRESH_GAP → safe_refresh env last = (last, 0)) ∧
    (MIN_REFRESH_GAP ≤ env.t1 - last → env.ok1 = false →
      (safe_refresh env last).2 = 2 ∧
      (env.ok2 = false → safe_refresh env last = (last, 2))) := by
  constructor
  · intro hgap
    simp [safe_refresh, hgap]
  · intro hgap hbusy
    have hnot : ¬ env.t1 - last < MIN_REFRESH_GAP := not_lt.mpr hgap
    constructor
    · by_cases h2 : env.ok2 <;> simp [safe_refresh, hnot, hbusy, h2]
    · intro h2
      simp [safe_refresh, hnot, hbusy, h2]

/-- Closed instance of C8: with both refresh attempts failing past the
minimum gap, two calls are made and the timestamp survives unchanged. -/
theorem C8_witness :
    MIN_REFRESH_GAP ≤ (1 : ℚ) - 0 ∧ safe_refresh ⟨1, false, 2, false⟩ 0 = (0, 2) :=
  ⟨by norm_num [MIN_REFRESH_GAP],
   ((C8_safe_refresh ⟨1, false, 2, false⟩ 0).2
      (by norm_num [MIN_REFRESH_GAP]) rfl).2 rfl⟩

/-- C10: the clock value written by `commit_time` carries the edited hour
and minute and second 0, while year, month and day are the ones read back
from the current clock — the date survives a time-set commit. -/
theorem C10_commit_time_preserves_date (now : StructTime) (eh em : Int) :
    (commit_time now eh em).tm_hour = eh ∧
    (commit_time now eh em).tm_min = em ∧
    (commit_time now eh em).tm_sec = 0 ∧
    (commit_time now eh em).tm_year = now.tm_year ∧
    (commit_time now eh em).tm_mon = now.tm_mon ∧
    (commit_time now eh em).tm_mday = now.tm_mday :=
  ⟨rfl, rfl, rfl, rfl, rfl, rfl⟩

end MagTag
